import Mathlib

/-!
Verification of the expression engine in src/headers/Expression.h: the
recursive expression tree and its four operations — eval, diff,
to_string (render) and optimize (simplify) — are translated into Lean
as pure functions, with the binding table passed explicitly (std::map's
operator[] inserts a default-constructed zero on a missing key, so eval
threads the table through and returns it alongside the result).  A
separate heap-level model captures the pointer mutations optimize
performs on its input nodes.
-/

namespace Expression

/-- Binary operator tags, from the source's Operation enum. -/
inductive Operation where
| PLUS
| MINUS
| MULT
| DIV
| POW
deriving DecidableEq

/-- Unary function tags, from the source's Function enum (renamed Func to
avoid shadowing Mathlib's Function namespace). -/
inductive Func where
| SIN
| COS
| LN
| EXP
deriving DecidableEq

/-- Error kinds.  The source signals errors with thrown runtime_error
messages; the first three constructors stand for the three messages that
occur ("Division by zero", "Unknown function", "Unknown operation").
The fourth, unsupportedOperation, is the distinct error kind the spec's
section 7 postulates for differentiating Pow over the complex field; the
source never raises it (it is included so the spec's claim about it can
be stated and compared against what the code actually raises). -/
inductive Err where
| divisionByZero
| unknownFunction
| unknownOperation
| unsupportedOperation
deriving DecidableEq

/-- The transcendental operations the numeric type supplies: models
std::sin, std::cos, std::log, std::exp and std::pow used by eval.  The
claims under verification never constrain their values, so any instance
works; witnesses use a trivial instance. -/
class Transcend (T : Type) where
  tsin : T → T
  tcos : T → T
  tlog : T → T
  texp : T → T
  tpow : T → T → T

/-- Trivial instance for the integer model of the real field, used only to
instantiate witnesses; no claim depends on these values. -/
instance : Transcend ℤ where
  tsin _ := 0
  tcos _ := 0
  tlog _ := 0
  texp _ := 0
  tpow _ _ := 0

/-- Trivial instance for the rational model of the real field, used only
to instantiate the renderer; no claim depends on these values. -/
instance : Transcend ℚ where
  tsin _ := 0
  tcos _ := 0
  tlog _ := 0
  texp _ := 0
  tpow _ _ := 0

/-- The expression tree, generic over the numeric type T.  The four
constructors correspond to the source's ConstantExpression,
VarExpression, MonoExpression and BinaryExpression classes, with fields
in the source's member order. -/
inductive Expr (T : Type) where
| const (value : T)
| var (name : String)
| mono (expr : Expr T) (func : Func)
| binary (left : Expr T) (right : Expr T) (op : Operation)
deriving DecidableEq

/-- Lookup in the binding table (std::map keyed by variable name, modelled
as an association list; only lookup order-independence matters). -/
def mapFind {T : Type} (env : List (String × T)) (k : String) : Option T :=
  match env with
  | [] => none
  | (k', v) :: rest => if k' = k then some v else mapFind rest k

/-- std::map's operator[]: returns the bound value, or default-constructs
the field's zero for a missing key, inserting it into the table. -/
def mapIdx {T : Type} [Zero T] (env : List (String × T)) (k : String) :
    T × List (String × T) :=
  match mapFind env k with
  | some v => (v, env)
  | none => (0, env ++ [(k, 0)])

/-- Dispatch of MonoExpression::eval's switch on the stored Function tag. -/
def applyFunc {T : Type} [Transcend T] (f : Func) (v : T) : T :=
  match f with
  | .SIN => Transcend.tsin v
  | .COS => Transcend.tcos v
  | .LN => Transcend.tlog v
  | .EXP => Transcend.texp v

/-- The evaluator (the eval virtual method), with the binding table
threaded explicitly: the result pairs the outcome (value or thrown
error) with the table as it stands when the call returns or the throw
propagates — std::map mutations performed before a throw persist in the
caller's table.  C++ leaves the order of the two operand evaluations in
an expression like a + b unspecified; left-before-right is fixed here
(the outcome and the final table's lookup behaviour are order
independent, since the only mutation is inserting zeros for missing
keys).  DIV mirrors the source exactly: the right child is evaluated and
checked against zero first, and only then are both children evaluated
for the division itself, so the right child is evaluated twice. -/
def evalM {T : Type} [Zero T] [Add T] [Sub T] [Mul T] [Div T]
    [DecidableEq T] [Transcend T] :
    Expr T → List (String × T) → Except Err T × List (String × T)
  | .const v, m => (.ok v, m)
  | .var s, m =>
    let r := mapIdx m s
    (.ok r.1, r.2)
  | .mono e f, m =>
    match evalM e m with
    | (.error err, m') => (.error err, m')
    | (.ok v, m') => (.ok (applyFunc f v), m')
  | .binary l r op, m =>
    match op with
    | .PLUS =>
      match evalM l m with
      | (.error err, m1) => (.error err, m1)
      | (.ok lv, m1) =>
        match evalM r m1 with
        | (.error err, m2) => (.error err, m2)
        | (.ok rv, m2) => (.ok (lv + rv), m2)
    | .MINUS =>
      match evalM l m with
      | (.error err, m1) => (.error err, m1)
      | (.ok lv, m1) =>
        match evalM r m1 with
        | (.error err, m2) => (.error err, m2)
        | (.ok rv, m2) => (.ok (lv - rv), m2)
    | .MULT =>
      match evalM l m with
      | (.error err, m1) => (.error err, m1)
      | (.ok lv, m1) =>
        match evalM r m1 with
        | (.error err, m2) => (.error err, m2)
        | (.ok rv, m2) => (.ok (lv * rv), m2)
    | .DIV =>
      match evalM r m with
      | (.error err, m1) => (.error err, m1)
      | (.ok rv, m1) =>
        if rv = 0 then (.error .divisionByZero, m1)
        else
          match evalM l m1 with
          | (.error err, m2) => (.error err, m2)
          | (.ok lv, m2) =>
            match evalM r m2 with
            | (.error err, m3) => (.error err, m3)
            | (.ok rv2, m3) => (.ok (lv / rv2), m3)
    | .POW =>
      match evalM l m with
      | (.error err, m1) => (.error err, m1)
      | (.ok lv, m1) =>
        match evalM r m1 with
        | (.error err, m2) => (.error err, m2)
        | (.ok rv, m2) => (.ok (Transcend.tpow lv rv), m2)

/-- Variable names occurring in an expression, in tree order. -/
def varsOf {T : Type} : Expr T → List String
  | .const _ => []
  | .var s => [s]
  | .mono e _ => varsOf e
  | .binary l r _ => varsOf l ++ varsOf r

/-- The dynamic_pointer_cast to ConstantExpression the simplifier and
differentiator use to test whether a node is a constant. -/
def isConst {T : Type} : Expr T → Option T
  | .const v => some v
  | _ => none

/-- An eval call on a fresh, empty binding table, keeping only the
outcome: models the expr->eval(map) calls optimize performs with a
local, just-constructed std::map. -/
def evalEmpty {T : Type} [Zero T] [Add T] [Sub T] [Mul T] [Div T]
    [DecidableEq T] [Transcend T] (e : Expr T) : Except Err T :=
  (evalM e []).1

/-- The second if of the source's MULT/DIV block: after the zero rules
have run (possibly replacing the node), a remaining constant one among
the two original constants triggers a fold of the current node through
an eval call on a fresh empty table. -/
def oneFoldStep {T : Type} [Zero T] [One T] [Add T] [Sub T] [Mul T] [Div T]
    [DecidableEq T] [Transcend T] (a b : T) (e1 : Expr T) :
    Except Err (Expr T) :=
  if a = 1 ∨ b = 1 then
    match evalEmpty e1 with
    | .error err => .error err
    | .ok v => .ok (.const v)
  else .ok e1

/-- The rewriting optimize performs on a BinaryExpression after both
children have been optimized (l' and r' are the already-optimized
children). The two sequential if-blocks of the source (the PLUS/MINUS
block and the MULT/DIV block) share the constant casts taken before
either block runs; when the PLUS/MINUS block rewrites 0 - x by mutating
the node's op to MULT and its left child to Constant(-1), control falls
into the MULT/DIV block whose stale left-constant cast still holds the
old Constant(0), so its left-constant-zero rule fires and the whole node
collapses to Constant(0) — that is the behaviour translated here. -/
def rewriteNode {T : Type} [Zero T] [One T] [Add T] [Sub T] [Mul T] [Div T]
    [DecidableEq T] [Transcend T] (l' r' : Expr T) (op : Operation) :
    Except Err (Expr T) :=
  if op = .PLUS ∨ op = .MINUS then
    match isConst l', isConst r' with
    | some a, some b =>
      if a = 0 ∨ b = 0 then
        match evalEmpty (Expr.binary l' r' op) with
        | .error err => .error err
        | .ok v => .ok (.const v)
      else .ok (.binary l' r' op)
    | some a, none =>
      if a = 0 then
        if op = .MINUS then .ok (.const 0)
        else .ok r'
      else .ok (.binary l' r' op)
    | none, some b =>
      if b = 0 then .ok l' else .ok (.binary l' r' op)
    | none, none => .ok (.binary l' r' op)
  else if op = .MULT ∨ op = .DIV then
    match isConst l', isConst r' with
    | some a, some b =>
      if a = 0 ∨ b = 0 then
        if op = .MULT then oneFoldStep a b (.const 0)
        else if b = 0 then .error .divisionByZero
        else oneFoldStep a b (.const 0)
      else oneFoldStep a b (.binary l' r' op)
    | some a, none =>
      if a = 1 ∧ op = .MULT then .ok r'
      else if a = 0 then .ok (.const 0)
      else .ok (.binary l' r' op)
    | none, some b =>
      if b = 1 then .ok l'
      else if b = 0 then .ok (.const 0)
      else .ok (.binary l' r' op)
    | none, none => .ok (.binary l' r' op)
  else .ok (.binary l' r' op)

/-- The simplifier (the optimize template function), as the function from
the input tree to the returned tree: children are optimized first
(bottom-up) and then the node is rewritten; Constant and Var nodes are
returned unchanged.  A thrown "Division by zero" (from the
constants-with-right-zero DIV rule, or from an eval call performed for
constant folding) propagates to the caller.  The source additionally
mutates the traversed nodes in place; that side of its behaviour is
modelled separately at the heap level below. -/
def optimize {T : Type} [Zero T] [One T] [Add T] [Sub T] [Mul T] [Div T]
    [DecidableEq T] [Transcend T] : Expr T → Except Err (Expr T)
  | .mono e f =>
    match optimize e with
    | .error err => .error err
    | .ok e' => .ok (.mono e' f)
  | .binary l r op =>
    match optimize l with
    | .error err => .error err
    | .ok l' =>
      match optimize r with
      | .error err => .error err
      | .ok r' => rewriteNode l' r' op
  | e => .ok e

/-- Model of std::abs on the numeric type (the real instantiation). -/
def fabs {T : Type} [Zero T] [Neg T] [LinearOrder T] (c : T) : T :=
  if c < 0 then -c else c

/-- The differentiator for the real instantiation (T not complex, so the
if-constexpr branch of the POW case is compiled in).  Every switch path
of the source returns, and the defensive default throws are unreachable
with the closed operator and function enums, so the function is total.
Field order and node sharing follow the source: in the POW-with-constant
branch the original right child (the constant node) reappears in the
result, and the exponent constants are computed as c - 1 and
abs(c) + 1 as in the source. -/
def diff {T : Type} [Zero T] [One T] [Neg T] [Add T] [Sub T]
    [OfNat T 2] [LinearOrder T] : Expr T → String → Expr T
  | .const _, _ => .const 0
  | .var s, v => if v = s then .const 1 else .const 0
  | .mono e f, v =>
    match f with
    | .SIN => .binary (.mono e .COS) (diff e v) .MULT
    | .COS =>
      .binary (.binary (.const (-1)) (.mono e .SIN) .MULT) (diff e v) .MULT
    | .LN => .binary (diff e v) e .DIV
    | .EXP => .binary (.mono e .EXP) (diff e v) .MULT
  | .binary l r op, v =>
    match op with
    | .PLUS => .binary (diff l v) (diff r v) .PLUS
    | .MINUS => .binary (diff l v) (diff r v) .MINUS
    | .MULT =>
      .binary (.binary (diff l v) r .MULT) (.binary l (diff r v) .MULT) .PLUS
    | .DIV =>
      .binary
        (.binary (.binary (diff l v) r .MULT) (.binary l (diff r v) .MULT) .MINUS)
        (.binary r (.const 2) .POW) .DIV
    | .POW =>
      match isConst r with
      | some c =>
        if 1 < c then
          .binary r (.binary (.binary l (.const (c - 1)) .POW) (diff l v) .MULT) .MULT
        else if c = 1 then .const 1
        else
          .binary (.binary r (diff l v) .MULT)
            (.binary l (.const (fabs c + 1)) .POW) .DIV
      | none =>
        match isConst l with
        | some _ =>
          .binary (diff r v) (.binary (.binary l r .POW) (.mono l .LN) .MULT) .MULT
        | none =>
          .binary (.binary (diff r v) (.mono l .LN) .MULT)
            (.binary r (.binary (diff l v) l .DIV) .MULT) .PLUS

/-- The differentiator for the complex instantiation.  The if-constexpr
condition in BinaryExpression::diff discards the whole POW body for
T = std::complex, so the POW case falls through the empty case label to
the default branch and throws runtime_error("Unknown operation"); every
other case is the same structural recursion as the real instantiation.
Both child derivatives are computed before the switch, as in the source,
so a child's thrown error propagates first. -/
def diffC {T : Type} [Zero T] [One T] [Neg T] [OfNat T 2] :
    Expr T → String → Except Err (Expr T)
  | .const _, _ => .ok (.const 0)
  | .var s, v => if v = s then .ok (.const 1) else .ok (.const 0)
  | .mono e f, v =>
    match diffC e v with
    | .error err => .error err
    | .ok ed =>
      match f with
      | .SIN => .ok (.binary (.mono e .COS) ed .MULT)
      | .COS => .ok (.binary (.binary (.const (-1)) (.mono e .SIN) .MULT) ed .MULT)
      | .LN => .ok (.binary ed e .DIV)
      | .EXP => .ok (.binary (.mono e .EXP) ed .MULT)
  | .binary l r op, v =>
    match diffC l v with
    | .error err => .error err
    | .ok ld =>
      match diffC r v with
      | .error err => .error err
      | .ok rd =>
        match op with
        | .PLUS => .ok (.binary ld rd .PLUS)
        | .MINUS => .ok (.binary ld rd .MINUS)
        | .MULT => .ok (.binary (.binary ld r .MULT) (.binary l rd .MULT) .PLUS)
        | .DIV =>
          .ok (.binary
            (.binary (.binary ld r .MULT) (.binary l rd .MULT) .MINUS)
            (.binary r (.const 2) .POW) .DIV)
        | .POW => .error .unknownOperation

/-- Minimal model of a complex number (pair of real components, the reals
abstracted as rationals), carrying exactly the structure the complex
differentiation claims exercise. -/
structure Cpx where
  re : ℚ
  im : ℚ
deriving DecidableEq

instance : Zero Cpx := ⟨⟨0, 0⟩⟩

instance : One Cpx := ⟨⟨1, 0⟩⟩

instance : OfNat Cpx 2 := ⟨⟨2, 0⟩⟩

instance : Neg Cpx := ⟨fun z => ⟨-z.re, -z.im⟩⟩

/-- Integer-if-whole formatting of a real constant, from the source's
to_string_optimized: a value equal to its floor prints as the integer;
otherwise std::to_string's fixed six-decimal rendering applies, modelled
on the rational abstraction of double by rounding the magnitude to six
fractional digits. -/
def to_string_optimized (a : ℚ) : String :=
  if a = (⌊a⌋ : ℚ) then toString ⌊a⌋
  else
    let sgn := if a < 0 then "-" else ""
    let scaled : ℤ := round (|a| * 1000000)
    let ip := scaled / 1000000
    let fp := (scaled % 1000000).toNat
    let digits := toString fp
    sgn ++ toString ip ++ "." ++
      String.mk (List.replicate (6 - digits.length) '0') ++ digits

/-- Rendering of the function name in MonoExpression::to_string. -/
def funcName (f : Func) : String :=
  match f with
  | .SIN => "sin"
  | .COS => "cos"
  | .LN => "ln"
  | .EXP => "exp"

/-- The renderer (the to_string virtual method) for the real (double)
instantiation: constants print via to_string_optimized with negative
values parenthesized; variables print their name; a unary call prints
its function name with the operand parenthesized, except that a
BinaryExpression operand is rendered without the extra parentheses
(its own rendering already supplies a pair); binary nodes print fully
parenthesized with a space on each side of the symbol for + - * /, and
with no spaces around the POW caret, exactly as in the source's switch. -/
def Expr.to_string : Expr ℚ → String
  | .const v =>
    if v < 0 then "(" ++ to_string_optimized v ++ ")" else to_string_optimized v
  | .var s => s
  | .mono e f =>
    match e with
    | .binary _ _ _ => funcName f ++ e.to_string
    | _ => funcName f ++ "(" ++ e.to_string ++ ")"
  | .binary l r op =>
    match op with
    | .PLUS => "(" ++ l.to_string ++ " + " ++ r.to_string ++ ")"
    | .MINUS => "(" ++ l.to_string ++ " - " ++ r.to_string ++ ")"
    | .MULT => "(" ++ l.to_string ++ " * " ++ r.to_string ++ ")"
    | .DIV => "(" ++ l.to_string ++ " / " ++ r.to_string ++ ")"
    | .POW => "(" ++ l.to_string ++ "^" ++ r.to_string ++ ")"

/-- A node as it sits on the heap: children are held by address (the
shared_ptr targets), so in-place field reassignment is observable. -/
inductive HNode (T : Type) where
| const (value : T)
| var (name : String)
| mono (expr : Nat) (func : Func)
| binary (left : Nat) (right : Nat) (op : Operation)
deriving DecidableEq

/-- The heap: addresses are indices, allocation appends. -/
abbrev Heap (T : Type) : Type := List (HNode T)

/-- Read the node at an address. -/
def Heap.read {T : Type} (h : Heap T) (p : Nat) : Option (HNode T) :=
  List.get? h p

/-- Overwrite the node at an address (an in-place field assignment through
a shared_ptr). -/
def Heap.write {T : Type} (h : Heap T) (p : Nat) (n : HNode T) : Heap T :=
  List.set h p n

/-- Allocate a fresh node (make_shared), returning the new heap and the
fresh address. -/
def Heap.alloc {T : Type} (h : Heap T) (n : HNode T) : Heap T × Nat :=
  (h ++ [n], List.length h)

/-- Errors of the heap-level interpreters: a propagated runtime error of
the program, or an artifact of the model (recursion fuel exhausted,
dangling address) that no actual run below ever produces. -/
inductive HErr where
| runtime (e : Err)
| fuel
| invalidRef
deriving DecidableEq

/-- The dynamic_pointer_cast to ConstantExpression, at the heap level:
the constant's value if the address holds a ConstantExpression node. -/
def constAt {T : Type} (h : Heap T) (p : Nat) : Option T :=
  match h.read p with
  | some (.const v) => some v
  | _ => none

/-- The evaluator at the heap level (used by optimize's constant-folding
eval calls), fuelled for termination; node addresses replace child
pointers but the arithmetic and the binding-table threading are the
same as in evalM. -/
def evalH {T : Type} [Zero T] [Add T] [Sub T] [Mul T] [Div T]
    [DecidableEq T] [Transcend T] :
    Nat → Heap T → Nat → List (String × T) →
      Except HErr (T × List (String × T))
  | 0, _, _, _ => .error .fuel
  | fuel + 1, h, p, m =>
    match h.read p with
    | none => .error .invalidRef
    | some (.const v) => .ok (v, m)
    | some (.var s) =>
      let r := mapIdx m s
      .ok (r.1, r.2)
    | some (.mono c f) =>
      match evalH fuel h c m with
      | .error err => .error err
      | .ok (v, m') => .ok (applyFunc f v, m')
    | some (.binary l r op) =>
      match op with
      | .PLUS =>
        match evalH fuel h l m with
        | .error err => .error err
        | .ok (lv, m1) =>
          match evalH fuel h r m1 with
          | .error err => .error err
          | .ok (rv, m2) => .ok (lv + rv, m2)
      | .MINUS =>
        match evalH fuel h l m with
        | .error err => .error err
        | .ok (lv, m1) =>
          match evalH fuel h r m1 with
          | .error err => .error err
          | .ok (rv, m2) => .ok (lv - rv, m2)
      | .MULT =>
        match evalH fuel h l m with
        | .error err => .error err
        | .ok (lv, m1) =>
          match evalH fuel h r m1 with
          | .error err => .error err
          | .ok (rv, m2) => .ok (lv * rv, m2)
      | .DIV =>
        match evalH fuel h r m with
        | .error err => .error err
        | .ok (rv, m1) =>
          if rv = 0 then .error (.runtime .divisionByZero)
          else
            match evalH fuel h l m1 with
            | .error err => .error err
            | .ok (lv, m2) =>
              match evalH fuel h r m2 with
              | .error err => .error err
              | .ok (rv2, m3) => .ok (lv / rv2, m3)
      | .POW =>
        match evalH fuel h l m with
        | .error err => .error err
        | .ok (lv, m1) =>
          match evalH fuel h r m1 with
          | .error err => .error err
          | .ok (rv, m2) => .ok (Transcend.tpow lv rv, m2)

/-- The simplifier at the heap level, performing the source's in-place
node mutations: a MonoExpression reassigns its expr field to the
optimized child and is returned at the same address; a BinaryExpression
reassigns left and right to the optimized children, then runs the two
rewrite blocks.  The constant casts are taken once, before either block
(constAt on the reassigned children); the 0 - x case performs the
source's two mutations (op becomes MULT, left becomes a fresh
Constant(-1)) and then, as in the source, control reaches the MULT/DIV
block whose stale left-constant cast still holds the old zero constant,
so a fresh Constant(0) is returned.  Constant folding allocates fresh
constant nodes; the identity rules return a child's address.  Fuelled
for termination; concrete runs below use ample fuel. -/
def optimizeH {T : Type} [Zero T] [One T] [Neg T] [Add T] [Sub T] [Mul T]
    [Div T] [DecidableEq T] [Transcend T] :
    Nat → Heap T → Nat → Except HErr (Heap T × Nat)
  | 0, _, _ => .error .fuel
  | fuel + 1, h, p =>
    match h.read p with
    | none => .error .invalidRef
    | some (.const _) => .ok (h, p)
    | some (.var _) => .ok (h, p)
    | some (.mono c f) =>
      match optimizeH fuel h c with
      | .error err => .error err
      | .ok (h1, c') => .ok (h1.write p (.mono c' f), p)
    | some (.binary l r op) =>
      match optimizeH fuel h l with
      | .error err => .error err
      | .ok (h1, l') =>
        match optimizeH fuel h1 r with
        | .error err => .error err
        | .ok (h2, r') =>
          let h3 := h2.write p (.binary l' r' op)
          let lc := constAt h3 l'
          let rc := constAt h3 r'
          if op = .PLUS ∨ op = .MINUS then
            match lc, rc with
            | some a, some b =>
              if a = 0 ∨ b = 0 then
                match evalH fuel h3 p [] with
                | .error err => .error err
                | .ok (v, _) =>
                  let al := h3.alloc (.const v)
                  .ok (al.1, al.2)
              else .ok (h3, p)
            | some a, none =>
              if a = 0 then
                if op = .MINUS then
                  let al := h3.alloc (.const (-1))
                  let h4 := al.1.write p (.binary al.2 r' .MULT)
                  let az := h4.alloc (.const 0)
                  .ok (az.1, az.2)
                else .ok (h3, r')
              else .ok (h3, p)
            | none, some b =>
              if b = 0 then .ok (h3, l') else .ok (h3, p)
            | none, none => .ok (h3, p)
          else if op = .MULT ∨ op = .DIV then
            match lc, rc with
            | some a, some b =>
              let step1 : Except HErr (Heap T × Nat) :=
                if a = 0 ∨ b = 0 then
                  if op = .MULT then
                    let az := h3.alloc (.const 0)
                    .ok (az.1, az.2)
                  else if b = 0 then .error (.runtime .divisionByZero)
                  else
                    let az := h3.alloc (.const 0)
                    .ok (az.1, az.2)
                else .ok (h3, p)
              match step1 with
              | .error err => .error err
              | .ok (h4, q) =>
                if a = 1 ∨ b = 1 then
                  match evalH fuel h4 q [] with
                  | .error err => .error err
                  | .ok (v, _) =>
                    let al := h4.alloc (.const v)
                    .ok (al.1, al.2)
                else .ok (h4, q)
            | some a, none =>
              if a = 1 ∧ op = .MULT then .ok (h3, r')
              else if a = 0 then
                let az := h3.alloc (.const 0)
                .ok (az.1, az.2)
              else .ok (h3, p)
            | none, some b =>
              if b = 1 then .ok (h3, l')
              else if b = 0 then
                let az := h3.alloc (.const 0)
                .ok (az.1, az.2)
              else .ok (h3, p)
            | none, none => .ok (h3, p)
          else .ok (h3, p)

/-- Decidable equality of outcomes, used by concrete evaluations. -/
instance {E A : Type} [DecidableEq E] [DecidableEq A] :
    DecidableEq (Except E A) := fun a b =>
  match a, b with
  | .error e1, .error e2 =>
    if h : e1 = e2 then .isTrue (by rw [h])
    else .isFalse (by intro hc; cases hc; exact h rfl)
  | .ok v1, .ok v2 =>
    if h : v1 = v2 then .isTrue (by rw [h])
    else .isFalse (by intro hc; cases hc; exact h rfl)
  | .error _, .ok _ => .isFalse (by intro hc; cases hc)
  | .ok _, .error _ => .isFalse (by intro hc; cases hc)

/-- Zero-extension relation between binding tables: every key either
keeps its binding or was absent and is now bound to the field's zero.
Evaluation only ever moves the table along this relation. -/
def ZExt {T : Type} [Zero T] (m m' : List (String × T)) : Prop :=
  ∀ k, mapFind m' k = mapFind m k ∨ (mapFind m k = none ∧ mapFind m' k = some 0)


/-- Lookup keeps a binding found in the front part of an appended table. -/
theorem mapFind_append_of_some {T : Type} (m l : List (String × T)) (k : String)
    (v : T) (h : mapFind m k = some v) : mapFind (m ++ l) k = some v := by
  induction m with
  | nil => cases h
  | cons p rest ih =>
    obtain ⟨k', w⟩ := p
    simp only [mapFind] at h
    simp only [List.cons_append, mapFind]
    split at h
    · rename_i hk; rw [if_pos hk]; exact h
    · rename_i hk; rw [if_neg hk]; exact ih h

/-- Lookup moves past a front part that does not bind the key. -/
theorem mapFind_append_of_none {T : Type} (m l : List (String × T)) (k : String)
    (h : mapFind m k = none) : mapFind (m ++ l) k = mapFind l k := by
  induction m with
  | nil => rfl
  | cons p rest ih =>
    obtain ⟨k', v⟩ := p
    simp only [mapFind] at h
    simp only [List.cons_append, mapFind]
    split at h
    · cases h
    · rename_i hk
      rw [if_neg hk]
      exact ih h

/-- Zero-extension is reflexive. -/
theorem zext_refl {T : Type} [Zero T] (m : List (String × T)) : ZExt m m :=
  fun _ => Or.inl rfl

/-- Zero-extension is transitive. -/
theorem zext_trans {T : Type} [Zero T] {m1 m2 m3 : List (String × T)}
    (h12 : ZExt m1 m2) (h23 : ZExt m2 m3) : ZExt m1 m3 := by
  intro k
  rcases h23 k with h | ⟨hn, hz⟩
  · rw [h]; exact h12 k
  · rcases h12 k with h | ⟨hn1, hz1⟩
    · right; rw [h] at hn; exact ⟨hn, hz⟩
    · rw [hz1] at hn; cases hn

/-- Zero-extension never changes an existing binding. -/
theorem zext_preserves_some {T : Type} [Zero T] {m m' : List (String × T)}
    (hz : ZExt m m') {k : String} {v : T} (h : mapFind m k = some v) :
    mapFind m' k = some v := by
  rcases hz k with he | ⟨hn, _⟩
  · rw [he, h]
  · rw [h] at hn; cases hn

/-- The map's operator[] zero-extends the table. -/
theorem zext_mapIdx {T : Type} [Zero T] (m : List (String × T)) (s : String) :
    ZExt m (mapIdx m s).2 := by
  unfold mapIdx
  cases hf : mapFind m s with
  | some v => exact zext_refl m
  | none =>
    dsimp only
    intro k
    cases hk : mapFind m k with
    | some w =>
      left
      exact mapFind_append_of_some m _ k w hk
    | none =>
      by_cases hsk : s = k
      · subst hsk
        right
        refine ⟨rfl, ?_⟩
        rw [mapFind_append_of_none m _ _ hk]
        simp [mapFind]
      · left
        rw [mapFind_append_of_none m _ k hk]
        simp [mapFind, hsk]

/-- Evaluation only zero-extends the binding table, whether it returns a
value or propagates a thrown error. -/
theorem evalM_zext {T : Type} [Zero T] [Add T] [Sub T] [Mul T] [Div T]
    [DecidableEq T] [Transcend T] :
    ∀ (e : Expr T) (m : List (String × T)), ZExt m (evalM e m).2 := by
  intro e
  induction e with
  | const v => intro m; exact zext_refl m
  | var s => intro m; exact zext_mapIdx m s
  | mono e f ih =>
    intro m
    simp only [evalM]
    rcases h1 : evalM e m with ⟨res1, m1⟩
    have z1 : ZExt m m1 := by have := ih m; rw [h1] at this; exact this
    cases res1 <;> simpa using z1
  | binary l r op ihl ihr =>
    intro m
    cases op <;> simp only [evalM]
    case PLUS =>
      rcases h1 : evalM l m with ⟨res1, m1⟩
      have z1 : ZExt m m1 := by have := ihl m; rw [h1] at this; exact this
      cases res1 with
      | error err => simpa using z1
      | ok lv =>
        dsimp only
        rcases h2 : evalM r m1 with ⟨res2, m2⟩
        have z2 : ZExt m1 m2 := by have := ihr m1; rw [h2] at this; exact this
        cases res2 <;> simpa using zext_trans z1 z2
    case MINUS =>
      rcases h1 : evalM l m with ⟨res1, m1⟩
      have z1 : ZExt m m1 := by have := ihl m; rw [h1] at this; exact this
      cases res1 with
      | error err => simpa using z1
      | ok lv =>
        dsimp only
        rcases h2 : evalM r m1 with ⟨res2, m2⟩
        have z2 : ZExt m1 m2 := by have := ihr m1; rw [h2] at this; exact this
        cases res2 <;> simpa using zext_trans z1 z2
    case MULT =>
      rcases h1 : evalM l m with ⟨res1, m1⟩
      have z1 : ZExt m m1 := by have := ihl m; rw [h1] at this; exact this
      cases res1 with
      | error err => simpa using z1
      | ok lv =>
        dsimp only
        rcases h2 : evalM r m1 with ⟨res2, m2⟩
        have z2 : ZExt m1 m2 := by have := ihr m1; rw [h2] at this; exact this
        cases res2 <;> simpa using zext_trans z1 z2
    case POW =>
      rcases h1 : evalM l m with ⟨res1, m1⟩
      have z1 : ZExt m m1 := by have := ihl m; rw [h1] at this; exact this
      cases res1 with
      | error err => simpa using z1
      | ok lv =>
        dsimp only
        rcases h2 : evalM r m1 with ⟨res2, m2⟩
        have z2 : ZExt m1 m2 := by have := ihr m1; rw [h2] at this; exact this
        cases res2 <;> simpa using zext_trans z1 z2
    case DIV =>
      rcases h1 : evalM r m with ⟨res1, m1⟩
      have z1 : ZExt m m1 := by have := ihr m; rw [h1] at this; exact this
      cases res1 with
      | error err => simpa using z1
      | ok rv =>
        dsimp only
        by_cases hz : rv = 0
        · rw [if_pos hz]; simpa using z1
        · rw [if_neg hz]
          rcases h2 : evalM l m1 with ⟨res2, m2⟩
          have z2 : ZExt m1 m2 := by have := ihl m1; rw [h2] at this; exact this
          cases res2 with
          | error err => simpa using zext_trans z1 z2
          | ok lv =>
            dsimp only
            rcases h3 : evalM r m2 with ⟨res3, m3⟩
            have z3 : ZExt m2 m3 := by have := ihr m2; rw [h3] at this; exact this
            cases res3 <;> simpa using zext_trans (zext_trans z1 z2) z3

/-- A successful evaluation visits every variable of the expression, so
each ends up bound in the final table. -/
theorem evalM_vars_present {T : Type} [Zero T] [Add T] [Sub T] [Mul T] [Div T]
    [DecidableEq T] [Transcend T] :
    ∀ (e : Expr T) (m : List (String × T)) (val : T) (m' : List (String × T)),
      evalM e m = (.ok val, m') → ∀ n ∈ varsOf e, ∃ w, mapFind m' n = some w := by
  intro e
  induction e with
  | const v => intro m val m' h n hn; simp [varsOf] at hn
  | var s =>
    intro m val m' h n hn
    simp only [varsOf, List.mem_singleton] at hn
    subst hn
    simp only [evalM] at h
    unfold mapIdx at h
    cases hf : mapFind m n with
    | some v =>
      rw [hf] at h
      dsimp only at h
      rw [Prod.mk.injEq] at h
      obtain ⟨hveq, hmeq⟩ := h
      subst hmeq
      exact ⟨v, hf⟩
    | none =>
      rw [hf] at h
      dsimp only at h
      rw [Prod.mk.injEq] at h
      obtain ⟨hveq, hmeq⟩ := h
      subst hmeq
      refine ⟨0, ?_⟩
      rw [mapFind_append_of_none m _ n hf]
      simp [mapFind]
  | mono e f ih =>
    intro m val m' h n hn
    simp only [varsOf] at hn
    simp only [evalM] at h
    rcases h1 : evalM e m with ⟨res1, m1⟩
    rw [h1] at h
    cases res1 with
    | error err => exact Except.noConfusion (congrArg Prod.fst h)
    | ok v1 =>
      dsimp only at h
      rw [Prod.mk.injEq] at h
      obtain ⟨hveq, hmeq⟩ := h
      subst hmeq
      exact ih m v1 m1 h1 n hn
  | binary l r op ihl ihr =>
    intro m val m' h n hn
    simp only [varsOf, List.mem_append] at hn
    cases op <;> simp only [evalM] at h
    case PLUS =>
      rcases h1 : evalM l m with ⟨res1, m1⟩
      rw [h1] at h
      cases res1 with
      | error err => exact Except.noConfusion (congrArg Prod.fst h)
      | ok lv =>
        dsimp only at h
        rcases h2 : evalM r m1 with ⟨res2, m2⟩
        rw [h2] at h
        cases res2 with
        | error err => exact Except.noConfusion (congrArg Prod.fst h)
        | ok rv =>
          dsimp only at h
          rw [Prod.mk.injEq] at h
          obtain ⟨hveq, hmeq⟩ := h
          subst hmeq
          rcases hn with hnl | hnr
          · obtain ⟨w, hw⟩ := ihl m lv m1 h1 n hnl
            have z2 : ZExt m1 m2 := by
              have := evalM_zext r m1; rw [h2] at this; exact this
            exact ⟨w, zext_preserves_some z2 hw⟩
          · exact ihr m1 rv m2 h2 n hnr
    case MINUS =>
      rcases h1 : evalM l m with ⟨res1, m1⟩
      rw [h1] at h
      cases res1 with
      | error err => exact Except.noConfusion (congrArg Prod.fst h)
      | ok lv =>
        dsimp only at h
        rcases h2 : evalM r m1 with ⟨res2, m2⟩
        rw [h2] at h
        cases res2 with
        | error err => exact Except.noConfusion (congrArg Prod.fst h)
        | ok rv =>
          dsimp only at h
          rw [Prod.mk.injEq] at h
          obtain ⟨hveq, hmeq⟩ := h
          subst hmeq
          rcases hn with hnl | hnr
          · obtain ⟨w, hw⟩ := ihl m lv m1 h1 n hnl
            have z2 : ZExt m1 m2 := by
              have := evalM_zext r m1; rw [h2] at this; exact this
            exact ⟨w, zext_preserves_some z2 hw⟩
          · exact ihr m1 rv m2 h2 n hnr
    case MULT =>
      rcases h1 : evalM l m with ⟨res1, m1⟩
      rw [h1] at h
      cases res1 with
      | error err => exact Except.noConfusion (congrArg Prod.fst h)
      | ok lv =>
        dsimp only at h
        rcases h2 : evalM r m1 with ⟨res2, m2⟩
        rw [h2] at h
        cases res2 with
        | error err => exact Except.noConfusion (congrArg Prod.fst h)
        | ok rv =>
          dsimp only at h
          rw [Prod.mk.injEq] at h
          obtain ⟨hveq, hmeq⟩ := h
          subst hmeq
          rcases hn with hnl | hnr
          · obtain ⟨w, hw⟩ := ihl m lv m1 h1 n hnl
            have z2 : ZExt m1 m2 := by
              have := evalM_zext r m1; rw [h2] at this; exact this
            exact ⟨w, zext_preserves_some z2 hw⟩
          · exact ihr m1 rv m2 h2 n hnr
    case POW =>
      rcases h1 : evalM l m with ⟨res1, m1⟩
      rw [h1] at h
      cases res1 with
      | error err => exact Except.noConfusion (congrArg Prod.fst h)
      | ok lv =>
        dsimp only at h
        rcases h2 : evalM r m1 with ⟨res2, m2⟩
        rw [h2] at h
        cases res2 with
        | error err => exact Except.noConfusion (congrArg Prod.fst h)
        | ok rv =>
          dsimp only at h
          rw [Prod.mk.injEq] at h
          obtain ⟨hveq, hmeq⟩ := h
          subst hmeq
          rcases hn with hnl | hnr
          · obtain ⟨w, hw⟩ := ihl m lv m1 h1 n hnl
            have z2 : ZExt m1 m2 := by
              have := evalM_zext r m1; rw [h2] at this; exact this
            exact ⟨w, zext_preserves_some z2 hw⟩
          · exact ihr m1 rv m2 h2 n hnr
    case DIV =>
      rcases h1 : evalM r m with ⟨res1, m1⟩
      rw [h1] at h
      cases res1 with
      | error err => exact Except.noConfusion (congrArg Prod.fst h)
      | ok rv =>
        dsimp only at h
        by_cases hz : rv = 0
        · rw [if_pos hz] at h
          exact Except.noConfusion (congrArg Prod.fst h)
        · rw [if_neg hz] at h
          rcases h2 : evalM l m1 with ⟨res2, m2⟩
          rw [h2] at h
          cases res2 with
          | error err => exact Except.noConfusion (congrArg Prod.fst h)
          | ok lv =>
            dsimp only at h
            rcases h3 : evalM r m2 with ⟨res3, m3⟩
            rw [h3] at h
            cases res3 with
            | error err => exact Except.noConfusion (congrArg Prod.fst h)
            | ok rv2 =>
              dsimp only at h
              rw [Prod.mk.injEq] at h
              obtain ⟨hveq, hmeq⟩ := h
              subst hmeq
              have z3 : ZExt m2 m3 := by
                have := evalM_zext r m2; rw [h3] at this; exact this
              rcases hn with hnl | hnr
              · obtain ⟨w, hw⟩ := ihl m1 lv m2 h2 n hnl
                exact ⟨w, zext_preserves_some z3 hw⟩
              · obtain ⟨w, hw⟩ := ihr m rv m1 h1 n hnr
                have z2 : ZExt m1 m2 := by
                  have := evalM_zext l m1; rw [h2] at this; exact this
                exact ⟨w, zext_preserves_some z3 (zext_preserves_some z2 hw)⟩

/-- An ok result of the one-fold step is a fresh constant or the node it
was given. -/
theorem oneFoldStep_shapes {T : Type} [Zero T] [One T] [Add T] [Sub T] [Mul T]
    [Div T] [DecidableEq T] [Transcend T] (a b : T) (e1 e' : Expr T)
    (h : oneFoldStep a b e1 = .ok e') :
    (∃ v, e' = Expr.const v) ∨ e' = e1 := by
  unfold oneFoldStep at h
  split at h
  · split at h <;> cases h
    exact Or.inl ⟨_, rfl⟩
  · cases h; exact Or.inr rfl

/-- Shape of an ok result of rewriteNode: a freshly built constant, one of
the two optimized children, or the unchanged node. -/
theorem rewriteNode_shapes {T : Type} [Zero T] [One T] [Add T] [Sub T] [Mul T]
    [Div T] [DecidableEq T] [Transcend T] (l' r' : Expr T) (op : Operation)
    (e' : Expr T) (h : rewriteNode l' r' op = .ok e') :
    (∃ v, e' = Expr.const v) ∨ e' = l' ∨ e' = r' ∨ e' = Expr.binary l' r' op := by
  unfold rewriteNode at h
  split at h
  · -- PLUS or MINUS
    split at h
    · split at h
      · split at h <;> cases h
        exact Or.inl ⟨_, rfl⟩
      · cases h; exact Or.inr (Or.inr (Or.inr rfl))
    · split at h
      · split at h
        · cases h; exact Or.inl ⟨_, rfl⟩
        · cases h; exact Or.inr (Or.inr (Or.inl rfl))
      · cases h; exact Or.inr (Or.inr (Or.inr rfl))
    · split at h
      · cases h; exact Or.inr (Or.inl rfl)
      · cases h; exact Or.inr (Or.inr (Or.inr rfl))
    · cases h; exact Or.inr (Or.inr (Or.inr rfl))
  · split at h
    · -- MULT or DIV
      split at h
      · split at h
        · split at h
          · rcases oneFoldStep_shapes _ _ _ _ h with ⟨v, hv⟩ | hsame
            · exact Or.inl ⟨v, hv⟩
            · exact Or.inl ⟨0, hsame⟩
          · split at h
            · cases h
            · rcases oneFoldStep_shapes _ _ _ _ h with ⟨v, hv⟩ | hsame
              · exact Or.inl ⟨v, hv⟩
              · exact Or.inl ⟨0, hsame⟩
        · rcases oneFoldStep_shapes _ _ _ _ h with ⟨v, hv⟩ | hsame
          · exact Or.inl ⟨v, hv⟩
          · exact Or.inr (Or.inr (Or.inr hsame))
      · split at h
        · cases h; exact Or.inr (Or.inr (Or.inl rfl))
        · split at h
          · cases h; exact Or.inl ⟨_, rfl⟩
          · cases h; exact Or.inr (Or.inr (Or.inr rfl))
      · split at h
        · cases h; exact Or.inr (Or.inl rfl)
        · split at h
          · cases h; exact Or.inl ⟨_, rfl⟩
          · cases h; exact Or.inr (Or.inr (Or.inr rfl))
      · cases h; exact Or.inr (Or.inr (Or.inr rfl))
    · cases h; exact Or.inr (Or.inr (Or.inr rfl))

/-- Every tree optimize returns is a fixed point of optimize. -/
theorem optimize_fix {T : Type} [Zero T] [One T] [Add T] [Sub T] [Mul T]
    [Div T] [DecidableEq T] [Transcend T] :
    ∀ (e e' : Expr T), optimize e = .ok e' → optimize e' = .ok e' := by
  intro e
  induction e with
  | const val =>
    intro e' h
    cases h
    rfl
  | var s =>
    intro e' h
    cases h
    rfl
  | mono e f ih =>
    intro e' h
    simp only [optimize] at h
    cases he : optimize e with
    | error err => rw [he] at h; cases h
    | ok e1 =>
      rw [he] at h
      cases h
      simp only [optimize, ih e1 he]
  | binary l r op ihl ihr =>
    intro e' h
    simp only [optimize] at h
    cases hl : optimize l with
    | error err => rw [hl] at h; cases h
    | ok l1 =>
      rw [hl] at h
      cases hr : optimize r with
      | error err => rw [hr] at h; cases h
      | ok r1 =>
        rw [hr] at h
        rcases rewriteNode_shapes l1 r1 op e' h with ⟨v, hv⟩ | h1 | h1 | h1
        · subst hv; rfl
        · subst h1; exact ihl _ hl
        · subst h1; exact ihr _ hr
        · subst h1
          simp only [optimize, ihl l1 hl, ihr r1 hr]
          exact h

/-- The only error the complex differentiator ever throws is the generic
Unknown-operation runtime error. -/
theorem diffC_error_is_unknownOperation {T : Type} [Zero T] [One T] [Neg T]
    [OfNat T 2] :
    ∀ (e : Expr T) (v : String) (err : Err),
      diffC e v = .error err → err = .unknownOperation := by
  intro e
  induction e with
  | const val => intro v err h; simp [diffC] at h
  | var s =>
    intro v err h
    simp only [diffC] at h
    split at h <;> cases h
  | mono e f ih =>
    intro v err h
    simp only [diffC] at h
    cases hd : diffC e v with
    | error e2 =>
      rw [hd] at h
      cases h
      exact ih v err hd
    | ok ed =>
      rw [hd] at h
      cases f <;> cases h
  | binary l r op ihl ihr =>
    intro v err h
    simp only [diffC] at h
    cases hl : diffC l v with
    | error e2 =>
      rw [hl] at h
      cases h
      exact ihl v err hl
    | ok ld =>
      rw [hl] at h
      cases hr : diffC r v with
      | error e2 =>
        rw [hr] at h
        cases h
        exact ihr v err hr
      | ok rd =>
        rw [hr] at h
        cases op <;> cases h
        rfl

/-- C1 (code bug): the spec requires simplification to preserve
evaluation semantics, and the code breaks it.  Simplifying 0 - x falls
through the mutated MINUS-to-MULT rewrite into the MULT/DIV block with a
stale constant cast and collapses the node to Constant(0), so the
simplified tree evaluates to 0 where the original evaluates to -5 under
x bound to 5; and simplifying x / Constant(0) yields Constant(0), which
evaluates to 0 where the original fails with DivisionByZero. -/
theorem c1_simplify_changes_semantics :
    optimize (Expr.binary (.const (0:ℤ)) (.var "x") .MINUS) = .ok (.const 0)
    ∧ evalM (Expr.binary (.const (0:ℤ)) (.var "x") .MINUS) [("x", 5)]
        = (.ok (-5), [("x", 5)])
    ∧ evalM (Expr.const (0:ℤ)) [("x", 5)] = (.ok 0, [("x", 5)])
    ∧ optimize (Expr.binary (.var "x") (.const (0:ℤ)) .DIV) = .ok (.const 0)
    ∧ evalM (Expr.binary (.var "x") (.const (0:ℤ)) .DIV) [("x", 1)]
        = (.error .divisionByZero, [("x", 1)]) := by decide

/-- C2 (counterexample): Add of two non-zero constants is not folded —
simplify of Constant(2) + Constant(3) returns the Add node unchanged,
not Constant(5). -/
theorem c2_no_general_fold :
    optimize (Expr.binary (.const (2:ℤ)) (.const 3) .PLUS)
      = .ok (.binary (.const 2) (.const 3) .PLUS)
    ∧ (Expr.binary (.const (2:ℤ)) (.const 3) .PLUS) ≠ .const 5 := by decide

/-- C2 (amended): Add/Sub constant folding fires only when one of the two
constants is the field's zero; in that case the node folds to a single
Constant whose value is computed by the evaluator. -/
theorem c2_fold_with_zero {T : Type} [Zero T] [One T] [Add T] [Sub T] [Mul T]
    [Div T] [DecidableEq T] [Transcend T] (a b : T) (h : a = 0 ∨ b = 0) :
    optimize (Expr.binary (.const a) (.const b) .PLUS) = .ok (.const (a + b))
    ∧ optimize (Expr.binary (.const a) (.const b) .MINUS) = .ok (.const (a - b)) := by
  constructor <;>
    simp only [optimize, rewriteNode, isConst, evalEmpty, evalM] <;>
    rw [if_pos h] <;> rfl

/-- C2 (witness): folding 0 + 3 yields Constant(3). -/
theorem c2_witness :
    optimize (Expr.binary (.const (0:ℤ)) (.const 3) .PLUS) = .ok (.const 3) := by
  have h := (c2_fold_with_zero (0:ℤ) 3 (Or.inl rfl)).1
  simpa using h

/-- C3: whenever the right child of a Div evaluates to the field's zero
under the given bindings, evaluating the Div fails with DivisionByZero —
the zero check runs on the evaluated right-hand side before the
division, and before the left child is even evaluated. -/
theorem c3_div_checks_zero_first {T : Type} [Zero T] [Add T] [Sub T] [Mul T]
    [Div T] [DecidableEq T] [Transcend T] (l r : Expr T)
    (env env' : List (String × T)) (h : evalM r env = (.ok 0, env')) :
    evalM (Expr.binary l r .DIV) env = (.error .divisionByZero, env') := by
  simp only [evalM, h]
  simp

/-- C3 (witness): evaluating Div(x, Constant(0)) with x bound to 1 fails
with DivisionByZero. -/
theorem c3_witness :
    evalM (Expr.binary (.var "x") (.const (0:ℤ)) .DIV) [("x", 1)]
      = (.error .divisionByZero, [("x", 1)]) :=
  c3_div_checks_zero_first (Expr.var "x") (Expr.const 0) [("x", 1)] [("x", 1)] rfl

/-- C4: evaluating a variable absent from the binding table returns the
field's zero (and inserts it), rather than failing with any error. -/
theorem c4_unbound_var_zero {T : Type} [Zero T] [Add T] [Sub T] [Mul T]
    [Div T] [DecidableEq T] [Transcend T] (env : List (String × T))
    (n : String) (h : mapFind env n = none) :
    evalM (Expr.var n) env = (.ok 0, env ++ [(n, 0)]) := by
  simp only [evalM, mapIdx, h]

/-- C4 (witness): evaluating x against an empty table returns 0. -/
theorem c4_witness :
    evalM (Expr.var "x") ([] : List (String × ℤ)) = (.ok 0, [("x", 0)]) :=
  c4_unbound_var_zero [] "x" rfl

/-- C5 (counterexample): over the complex field, differentiating a Pow
node fails with the generic Unknown-operation runtime error — the same
error as the defensive default branch — not with a distinct
UnsupportedOperation error. -/
theorem c5_error_is_not_unsupported :
    diffC (Expr.binary (.var "x") (.var "y") .POW : Expr Cpx) "x"
      = .error .unknownOperation
    ∧ Err.unknownOperation ≠ Err.unsupportedOperation :=
  ⟨rfl, by decide⟩

/-- C5 (amended): over the complex field, differentiating any Pow node
fails (never silently produces a result), with the generic
Unknown-operation error thrown by the default branch that the emptied
POW case falls through to. -/
theorem c5_complex_pow_diff_fails {T : Type} [Zero T] [One T] [Neg T]
    [OfNat T 2] (l r : Expr T) (v : String) :
    diffC (Expr.binary l r .POW) v = .error .unknownOperation := by
  simp only [diffC]
  cases hl : diffC l v with
  | error e2 =>
    rw [diffC_error_is_unknownOperation l v e2 hl]
  | ok ld =>
    cases hr : diffC r v with
    | error e2 => rw [diffC_error_is_unknownOperation r v e2 hr]
    | ok rd => rfl

/-- C6: over the real field, differentiating Pow(l, Constant(c)) follows
the source's three branches exactly — for c greater than 1 the power
rule c * (l^(c-1) * diff(l)); for c equal to 1 the constant one; and
otherwise the preserved quirk formula (c * diff(l)) / l^(abs(c) + 1). -/
theorem c6_pow_const_rules {T : Type} [Zero T] [One T] [Neg T] [Add T] [Sub T]
    [OfNat T 2] [LinearOrder T] (l : Expr T) (c : T) (v : String) :
    (1 < c →
      diff (Expr.binary l (.const c) .POW) v
        = .binary (.const c)
            (.binary (.binary l (.const (c - 1)) .POW) (diff l v) .MULT) .MULT)
    ∧ (c = 1 → diff (Expr.binary l (.const c) .POW) v = .const 1)
    ∧ (¬ 1 < c → c ≠ 1 →
      diff (Expr.binary l (.const c) .POW) v
        = .binary (.binary (.const c) (diff l v) .MULT)
            (.binary l (.const (fabs c + 1)) .POW) .DIV) := by
  refine ⟨fun h => ?_, fun h => ?_, fun h1 h2 => ?_⟩
  · simp only [diff, isConst]
    rw [if_pos h]
  · subst h
    simp only [diff, isConst]
    rw [if_neg (lt_irrefl 1)]
    simp
  · simp only [diff, isConst]
    rw [if_neg h1, if_neg h2]

/-- C6 (witness): the power rule at l = x, c = 2 gives 2 * (x^1 * 1). -/
theorem c6_witness :
    diff (Expr.binary (.var "x") (.const (2:ℤ)) .POW) "x"
      = .binary (.const 2)
          (.binary (.binary (.var "x") (.const 1) .POW) (.const 1) .MULT) .MULT := by
  have h := (c6_pow_const_rules (Expr.var "x") (2:ℤ) "x").1 (by decide)
  simpa [diff] using h

/-- C7 (counterexample): Pow renders with no spaces around the caret —
the Pow of x and Constant(2) renders as "(x^2)", not "(x ^ 2)" — while
the Add example renders as the claim states. -/
theorem c7_pow_no_spaces :
    (Expr.binary (.var "x") (.const (2:ℚ)) .POW).to_string = "(x^2)"
    ∧ (Expr.binary (.var "x") (.const (2:ℚ)) .POW).to_string ≠ "(x ^ 2)"
    ∧ (Expr.binary (.var "x") (.const (2:ℚ)) .PLUS).to_string = "(x + 2)" := by
  decide

/-- C7 (amended): every binary node renders fully parenthesized; the four
operators + - * / carry a single space on each side of the symbol, and
Pow renders its caret with no surrounding spaces. -/
theorem c7_render_binary (l r : Expr ℚ) :
    (Expr.binary l r .PLUS).to_string
        = "(" ++ l.to_string ++ " + " ++ r.to_string ++ ")"
    ∧ (Expr.binary l r .MINUS).to_string
        = "(" ++ l.to_string ++ " - " ++ r.to_string ++ ")"
    ∧ (Expr.binary l r .MULT).to_string
        = "(" ++ l.to_string ++ " * " ++ r.to_string ++ ")"
    ∧ (Expr.binary l r .DIV).to_string
        = "(" ++ l.to_string ++ " / " ++ r.to_string ++ ")"
    ∧ (Expr.binary l r .POW).to_string
        = "(" ++ l.to_string ++ "^" ++ r.to_string ++ ")" :=
  ⟨rfl, rfl, rfl, rfl, rfl⟩

/-- C8: simplification is idempotent — chaining optimize after optimize
(propagating a thrown error) equals a single optimize pass, so any tree
optimize returns is returned unchanged by a second pass. -/
theorem c8_optimize_idempotent {T : Type} [Zero T] [One T] [Add T] [Sub T]
    [Mul T] [Div T] [DecidableEq T] [Transcend T] (e : Expr T) :
    (optimize e).bind optimize = optimize e := by
  cases h : optimize e with
  | error err => rfl
  | ok e' =>
    show optimize e' = Except.ok e'
    exact optimize_fix e e' h

/-- C9 (code bug): optimize mutates its input in place.  Running the
heap-level optimize on the tree 0 - x overwrites the original
BinaryExpression node (address 2) from Binary(Minus, 0, 1) to
Binary(Mult, 3, 1) whose left child is a freshly allocated Constant(-1),
so any other expression sharing that node sees it changed; the claim
says the original tree stays structurally unchanged. -/
theorem c9_optimize_mutates_input :
    optimizeH 9 ([.const (0:ℤ), .var "x", .binary 0 1 .MINUS] : Heap ℤ) 2
      = .ok ([.const 0, .var "x", .binary 3 1 .MULT, .const (-1), .const 0], 4)
    ∧ Heap.read ([.const (0:ℤ), .var "x", .binary 0 1 .MINUS] : Heap ℤ) 2
        = some (.binary 0 1 .MINUS)
    ∧ Heap.read ([.const (0:ℤ), .var "x", .binary 3 1 .MULT, .const (-1), .const 0] : Heap ℤ) 2
        = some (.binary 3 1 .MULT)
    ∧ (HNode.binary 3 1 .MULT : HNode ℤ) ≠ .binary 0 1 .MINUS := by decide

/-- C10 (counterexample): a throw can abort evaluation before a variable
is reached: evaluating x / Constant(0) against the empty table fails on
the right-hand zero check before x is ever looked up, so no entry for x
is inserted even though the expression contains Variable(x). -/
theorem c10_throw_skips_insertion :
    evalM (Expr.binary (.var "x") (.const (0:ℤ)) .DIV) []
      = (.error .divisionByZero, [])
    ∧ "x" ∈ varsOf (Expr.binary (.var "x") (.const (0:ℤ)) .DIV)
    ∧ mapFind ([] : List (String × ℤ)) "x" = none
    ∧ mapFind (evalM (Expr.binary (.var "x") (.const (0:ℤ)) .DIV) []).2 "x" = none := by
  decide

/-- C10 (amended): entries already present in the binding table are never
changed by evaluation; and when evaluation completes successfully, every
variable occurring in the expression that was absent from the table has
been inserted mapped to the field's zero. -/
theorem c10_table_growth {T : Type} [Zero T] [Add T] [Sub T] [Mul T] [Div T]
    [DecidableEq T] [Transcend T] :
    (∀ (e : Expr T) (env : List (String × T)) (k : String) (v : T),
      mapFind env k = some v → mapFind (evalM e env).2 k = some v)
    ∧ (∀ (e : Expr T) (env : List (String × T)) (val : T)
        (env' : List (String × T)),
      evalM e env = (.ok val, env') → ∀ n ∈ varsOf e,
        mapFind env n = none → mapFind env' n = some 0) := by
  constructor
  · intro e env k v hv
    exact zext_preserves_some (evalM_zext e env) hv
  · intro e env val env' h n hn hnone
    obtain ⟨w, hw⟩ := evalM_vars_present e env val env' h n hn
    have hz : ZExt env env' := by
      have := evalM_zext e env
      rw [h] at this
      exact this
    rcases hz n with heq | ⟨_, hzero⟩
    · rw [heq, hnone] at hw; cases hw
    · exact hzero

/-- C10 (witness): an existing binding of x survives evaluating y, and a
successful evaluation of x against the empty table leaves x bound to 0. -/
theorem c10_witness :
    mapFind (evalM (Expr.var "y") [("x", (1:ℤ))]).2 "x" = some 1
    ∧ mapFind (evalM (Expr.var "x") ([] : List (String × ℤ))).2 "x" = some 0 := by
  constructor
  · exact c10_table_growth.1 (Expr.var "y") [("x", (1:ℤ))] "x" 1 rfl
  · exact c10_table_growth.2 (Expr.var "x") [] 0 [("x", 0)] rfl "x" (by decide) rfl

end Expression
